import Mathlib

/-!
# PhotoSortr — formal model and verification

A shallow embedding of the PhotoSortr code base (`state_manager.py`,
`duplicate_detector.py`, `folder_manager.py`, `sorter.py`) together with
theorems settling the spec claims.

Modelling conventions:
* File bytes are represented by their SHA-256 digest string: the code never
  inspects file contents except to digest them, so two files are byte-equal
  exactly when their digests agree.  A file system is a finite association
  list from absolute path to `FileInfo`, holding the digest and (when PIL can
  decode the file) the perceptual-hash bit vector.  A missing entry models a
  missing or unreadable file (`IOError` on open).
* A perceptual hash is a fixed-width bit vector, modelled as `List Bool`;
  `imagehash.hex_to_hash` parsing is modelled as already-parsed bit vectors,
  with unparsable or absent stored codes collapsed to `none` (both make the
  scan `continue`).
* Python dictionaries with possibly-missing keys are modelled as structures
  with `Option` fields for exactly the keys whose presence the code tests.
* Python `int` is `Int`; list indexing follows Python semantics (negative
  indices count from the end; out-of-range raises, modelled as `none`).
-/

namespace PhotoSortr

/-- An entry of the `action_history` list: the dict
`{'action': ..., 'old_path': ..., 'new_path': ...}` built in
`sorter.py` (`_handle_choice`).  `action` is `"moved"` or `"deleted"`. -/
structure Action where
  action : String
  old_path : String
  new_path : String
deriving DecidableEq, Repr

/-- The session-state dict of `state_manager.py`.  The four counters and
`last_index` are always present after `load_state`; `skipped_files` and
`action_history` are the keys whose presence the code tests
(`if 'action_history' not in state`), so they are `Option`s: `none` models
an absent key. -/
structure SessionState where
  last_index : Int
  sorted_count : Int
  skipped_count : Int
  deleted_count : Int
  duplicate_count : Int
  skipped_files : Option (List String)
  action_history : Option (List Action)
deriving DecidableEq, Repr

/-- What reading the persisted state file yields: the file is missing, the
file exists but `json.load` raises `JSONDecodeError`/`IOError`, or it parses
to a dict whose keys may individually be absent. -/
structure RawState where
  last_index : Option Int
  sorted_count : Option Int
  skipped_count : Option Int
  deleted_count : Option Int
  duplicate_count : Option Int
  skipped_files : Option (List String)
  action_history : Option (List Action)
deriving DecidableEq, Repr

/-- What the persisted state file contains, as seen by
`open` + `json.load` + the default-filling loop.  The cases partition the
code's behaviours: the file is missing; opening or reading raises `IOError`;
the bytes are UTF-8 but not JSON (`json.JSONDecodeError`); the bytes are not
valid UTF-8 (`json.load` raises `UnicodeDecodeError`, a `ValueError` that is
neither a `JSONDecodeError` nor an `IOError`); the file parses to a JSON
value that is not an object, so the default-filling loop's `key not in
state` / `state[key] = default` raises `TypeError` (a number immediately,
a string or a typical array at the first assignment of a missing key); or it
parses to an object whose keys may individually be absent. -/
inductive StateFileRead where
  | missing
  | unreadable
  | notJson
  | badEncoding
  | jsonNonObject
  | jsonObject (raw : RawState)
deriving DecidableEq, Repr

/-- A Python exception escaping `load_state` (the session crashes). -/
inductive PyExc where
  | typeError
  | unicodeDecodeError
deriving DecidableEq, Repr

/-- The default session state returned for a missing state file (all seven
keys present). -/
def freshState : SessionState :=
  { last_index := 0, sorted_count := 0, skipped_count := 0,
    deleted_count := 0, duplicate_count := 0,
    skipped_files := some [], action_history := some [] }

/-- `state_manager.load_state`: a missing file returns the full default
dict; an `IOError` or `JSONDecodeError` is caught, warns, and returns the
literal default dict at the bottom of the function (which has no
`action_history` key); a parsed object has every missing key filled with
its default.  Any other exception escapes — the `except` clause at
state_manager.py:76 names only `(json.JSONDecodeError, IOError)`, so a
valid-JSON non-object file raises `TypeError` from the default-filling loop
(lines 70-72) and a non-UTF-8 file raises `UnicodeDecodeError` from
`json.load`. -/
def load_state : StateFileRead → Except PyExc SessionState
  | .missing => .ok freshState
  | .unreadable =>
      .ok { last_index := 0, sorted_count := 0, skipped_count := 0,
            deleted_count := 0, duplicate_count := 0,
            skipped_files := some [], action_history := none }
  | .notJson =>
      .ok { last_index := 0, sorted_count := 0, skipped_count := 0,
            deleted_count := 0, duplicate_count := 0,
            skipped_files := some [], action_history := none }
  | .badEncoding => .error .unicodeDecodeError
  | .jsonNonObject => .error .typeError
  | .jsonObject raw =>
      .ok { last_index := raw.last_index.getD 0,
            sorted_count := raw.sorted_count.getD 0,
            skipped_count := raw.skipped_count.getD 0,
            deleted_count := raw.deleted_count.getD 0,
            duplicate_count := raw.duplicate_count.getD 0,
            skipped_files := some (raw.skipped_files.getD []),
            action_history := some (raw.action_history.getD []) }

/-- `state_manager.add_skipped_file`: create the `skipped_files` key if
absent, then append the path unless already present (set semantics). -/
def add_skipped_file (s : SessionState) (filepath : String) : SessionState :=
  let files := s.skipped_files.getD []
  if filepath ∈ files then { s with skipped_files := some files }
  else { s with skipped_files := some (files ++ [filepath]) }

/-- `state_manager.add_action_to_history`: create the `action_history` key if
absent, then append the action unless an equal action is already present
anywhere in the list (`if action not in state['action_history']`). -/
def add_action_to_history (s : SessionState) (a : Action) : SessionState :=
  let hist := s.action_history.getD []
  if a ∈ hist then { s with action_history := some hist }
  else { s with action_history := some (hist ++ [a]) }

/-- `state_manager.get_last_action`: `None` on an absent key or empty list,
otherwise `action_history[-1]`.  (The Python function also inserts the key
when absent; that mutation is observationally an empty history.) -/
def get_last_action (s : SessionState) : Option Action :=
  (s.action_history.getD []).getLast?

/-- `state_manager.pop_last_action`: insert the key when absent, no-op on an
empty list (`[].dropLast = []`), otherwise remove the last entry. -/
def pop_last_action (s : SessionState) : SessionState :=
  match s.action_history with
  | none => { s with action_history := some [] }
  | some hist => { s with action_history := some hist.dropLast }

/-! ## Duplicate detector (`duplicate_detector.py`) -/

/-- The value stored under a path key in `image_hashes.json`:
`{'sha256': ..., 'phash': ...}`.  Both reads go through `dict.get`, so each
field is an `Option`; `add_hash` always stores a digest. -/
structure HashRecord where
  sha256 : Option String
  phash : Option (List Bool)
deriving DecidableEq, Repr

/-- The in-memory hash database `self.hashes`: a JSON object, i.e. an
insertion-ordered mapping from (relative) path to record. -/
abbrev HashDB := List (String × HashRecord)

/-- Insert-or-overwrite for an insertion-ordered mapping, as Python
`d[k] = v`: an existing key keeps its position, a new key is appended. -/
def dbInsert : HashDB → String → HashRecord → HashDB
  | [], k, v => [(k, v)]
  | (k', v') :: rest, k, v =>
      if k' = k then (k, v) :: rest else (k', v') :: dbInsert rest k v

/-- Lookup by path key. -/
def dbFind : HashDB → String → Option HashRecord
  | [], _ => none
  | (k', v') :: rest, k => if k' = k then some v' else dbFind rest k

/-- Models `os.path.relpath(filepath, root)` for a path lying under `root`:
the root prefix and the separator after it are removed. -/
def relpath (root fp : String) : String :=
  ⟨(fp.data.drop root.length).dropWhile (· = '/')⟩

/-- The key under which `add_hash` stores a file: relative to the configured
root when the path starts with it (`filepath.startswith(root)`), else the
path itself. -/
def relKey (root fp : String) : String :=
  if root.data.isPrefixOf fp.data then relpath root fp else fp

/-- `HashDatabase.add_hash`: store `{'sha256': sha256, 'phash': phash}`
under the (relativised) path key. -/
def add_hash (root : String) (db : HashDB) (filepath sha256 : String)
    (phash : Option (List Bool)) : HashDB :=
  dbInsert db (relKey root filepath) { sha256 := some sha256, phash := phash }

/-- `HashDatabase.get_by_sha256`: linear scan in storage order, first record
whose stored digest equals the query wins. -/
def get_by_sha256 : HashDB → String → Option String
  | [], _ => none
  | (fp, data) :: rest, sha =>
      if data.sha256 = some sha then some fp else get_by_sha256 rest sha

/-- Hamming distance between two perceptual-hash codes
(`imagehash` hash subtraction: count of differing bits; all codes produced
by `imagehash.phash` have the same fixed width). -/
def hamming (a b : List Bool) : Nat :=
  ((a.zip b).filter (fun p => p.1 ≠ p.2)).length

/-- The scan loop of `find_similar_by_phash`: thread the pair
`(best_match, best_distance)` through the entries in storage order; entries
without a usable stored code are skipped; a strictly smaller distance
replaces the incumbent. -/
def findSimilarAux (query : List Bool) :
    HashDB → Option String × Int → Option String × Int
  | [], best => best
  | (fp, data) :: rest, best =>
      findSimilarAux query rest
        (match data.phash with
         | none => best
         | some sp =>
             if (hamming query sp : Int) < best.2
             then (some fp, (hamming query sp : Int)) else best)

/-- `HashDatabase.find_similar_by_phash`: when perceptual hashing is
unavailable return `None`; otherwise scan with `best_distance` initialised
to `threshold + 1` and return the incumbent when it is truthy and within the
threshold. -/
def find_similar_by_phash (avail : Bool) (db : HashDB) (query : List Bool)
    (threshold : Int) : Option (String × Int) :=
  if avail then
    match findSimilarAux query db (none, threshold + 1) with
    | (some fp, d) => if fp ≠ "" ∧ d ≤ threshold then some (fp, d) else none
    | (none, _) => none
  else none

/-- Per-file data of the modelled file system: the SHA-256 digest standing
for the bytes, and the perceptual-hash code when the file decodes as an
image (`none` models `compute_perceptual_hash` returning `None`). -/
structure FileInfo where
  sha : String
  phash : Option (List Bool)
deriving DecidableEq, Repr

/-- A file system: finitely many existing readable files, keyed by absolute
path. -/
abbrev FS := List (String × FileInfo)

/-- Path lookup. -/
def fsGet : FS → String → Option FileInfo
  | [], _ => none
  | (p, i) :: rest, q => if p = q then some i else fsGet rest q

/-- Remove a path. -/
def fsRemove : FS → String → FS
  | [], _ => []
  | (p, i) :: rest, q => if p = q then fsRemove rest q else (p, i) :: fsRemove rest q

/-- Create or overwrite a file. -/
def fsSet (fs : FS) (p : String) (i : FileInfo) : FS :=
  (p, i) :: fsRemove fs p

/-- `compute_file_hash`: digest the file's bytes; `none` models the
`IOError` raised when the file cannot be opened. -/
def compute_file_hash (fs : FS) (p : String) : Option String :=
  (fsGet fs p).map (·.sha)

/-- `compute_perceptual_hash`: the image's code, or `None` when the file is
missing, unreadable or undecodable. -/
def compute_perceptual_hash (fs : FS) (p : String) : Option (List Bool) :=
  (fsGet fs p).bind (·.phash)

/-- `duplicate_detector.is_duplicate`, returning the triple
`(is_duplicate, duplicate_type, original_file)`.  The perceptual-hash
computation is passed as the oracle `pfs` (the sorter passes
`compute_perceptual_hash fs`), mirroring that it is a separate call made
only when no exact match exists. -/
def is_duplicate (avail : Bool) (fs : FS) (pfs : String → Option (List Bool))
    (filepath : String) (db : HashDB) (threshold : Int) :
    Bool × Option String × Option String :=
  match compute_file_hash fs filepath with
  | none => (false, none, none)
  | some sha =>
      match get_by_sha256 db sha with
      | some original => (true, some "exact", some original)
      | none =>
          if avail then
            match pfs filepath with
            | some ph =>
                match find_similar_by_phash avail db ph threshold with
                | some (orig, _) => (true, some "similar", some orig)
                | none => (false, none, none)
            | none => (false, none, none)
          else (false, none, none)

/-- `duplicate_detector.add_to_hash_db`: digest the file and store it; any
exception (in particular the `IOError` from `compute_file_hash` when the
file is gone) is caught and leaves the database unchanged. -/
def add_to_hash_db (avail : Bool) (root : String) (fs : FS) (filepath : String)
    (db : HashDB) : HashDB :=
  match compute_file_hash fs filepath with
  | none => db
  | some sha =>
      add_hash root db filepath sha
        (if avail then compute_perceptual_hash fs filepath else none)

/-! ## Folder manager (`folder_manager.py`) -/

/-- `os.path.join` for an absolute directory and a relative component. -/
def joinPath (dir name : String) : String := dir ++ "/" ++ name

/-- Split a character list at every occurrence of a separator character
(the splitting underlying `str.split(sep)`). -/
def splitOnChar (c : Char) : List Char → List (List Char)
  | [] => [[]]
  | ch :: rest =>
      let r := splitOnChar c rest
      if ch = c then [] :: r
      else
        match r with
        | [] => [[ch]]
        | g :: gs => (ch :: g) :: gs

/-- `os.path.basename`: the component after the last separator. -/
def basename (p : String) : String := ⟨(splitOnChar '/' p.data).getLastD []⟩

/-- `os.path.splitext` on a bare file name: split at the last dot
(`("photo", ".jpg")`); no dot yields an empty extension. -/
def splitext (fname : String) : String × String :=
  let parts := splitOnChar '.' fname.data
  if parts.length ≤ 1 then (fname, "")
  else (⟨List.intercalate ['.'] parts.dropLast⟩,
        ⟨'.' :: parts.getLastD []⟩)

/-- The collision loop of `move_photo`: try `base_1ext`, `base_2ext`, … until
a free name is found.  The fuel is `fs.length + 1`, enough for the loop to
terminate exactly as the Python `while` does (at most `|fs|` candidates can
be occupied). -/
def freshDestAux (fs : FS) (dest_folder base ext : String) :
    Nat → Nat → String
  | 0, c => joinPath dest_folder (base ++ "_" ++ toString c ++ ext)
  | fuel + 1, c =>
      let cand := joinPath dest_folder (base ++ "_" ++ toString c ++ ext)
      if fsGet fs cand = none then cand
      else freshDestAux fs dest_folder base ext fuel (c + 1)

/-- `folder_manager.move_photo`: fail (`FileNotFoundError`) when the source
does not exist, otherwise move it to `dest_folder/basename`, appending a
numeric suffix before the extension on collision.  Returns the updated file
system and the new path.  (The directory-existence checks are not modelled:
every call site creates or lists the destination directory first.) -/
def move_photo (fs : FS) (src dest_folder : String) : Option (FS × String) :=
  match fsGet fs src with
  | none => none
  | some info =>
      let fname := basename src
      let d0 := joinPath dest_folder fname
      let dest :=
        if fsGet fs d0 = none then d0
        else freshDestAux fs dest_folder (splitext fname).1 (splitext fname).2
          (fs.length + 1) 1
      some (fsSet (fsRemove fs src) dest info, dest)

/-- The characters `create_event_folder` rejects in a folder name. -/
def invalidFolderChars : List Char :=
  ['/', '\\', ':', '*', '?', '"', '<', '>', '|']

/-- The validation of `folder_manager.create_event_folder`: the stripped
name must be non-empty and contain no reserved character. -/
def folderNameValid (name : String) : Bool :=
  ¬ name.trim = "" ∧ ∀ c ∈ invalidFolderChars, ¬ name.trim.contains c

/-! ## Sorter (`sorter.py`) -/

/-- The in-memory state of a `PhotoSorter` mid-run: the scan snapshot, the
Python-int cursor and counters, the state dict, the hash database, the
modelled file system, and the set of existing event folders (standing for
what `list_event_folders` reads from disk, in creation order).
`avail` is the module flag `PERCEPTUAL_HASH_AVAILABLE`. -/
structure Sorter where
  root_dir : String
  images : List String
  current_index : Int
  sorted_count : Int
  skipped_count : Int
  deleted_count : Int
  duplicate_count : Int
  state : SessionState
  hash_db : HashDB
  fs : FS
  folders : List String
  auto_move_duplicates : Bool
  duplicate_threshold : Int
  avail : Bool
deriving DecidableEq, Repr

/-- The trash directory `root/.trash`. -/
def Sorter.trash_dir (s : Sorter) : String := joinPath s.root_dir ".trash"

/-- A user keypress as interpreted by `_handle_choice`: digits carry the
typed digit, the new-folder choice carries the prompted name (`none` for an
empty/cancelled prompt), delete carries the confirmation answer. -/
inductive Choice where
  | digit (n : Nat)
  | newFolder (name : Option String)
  | skip
  | dup
  | delete (confirmed : Bool)
  | undo
  | quit
  | invalid
deriving DecidableEq, Repr

/-- The environment of one loop iteration: whether `os_viewer.open_image`
succeeds, and the keypress the user makes if the menu is reached. -/
structure Env where
  viewerOk : Bool
  choice : Choice
deriving DecidableEq, Repr

/-- Python list indexing `l[i]`: non-negative indices from the front,
negative indices from the end, out of range raises (modelled `none`). -/
def pyGet (l : List String) (i : Int) : Option String :=
  if 0 ≤ i then l.get? i.toNat
  else if (-i).toNat ≤ l.length then l.get? (l.length - (-i).toNat)
  else none

/-- `PhotoSorter._handle_duplicate`: move the photo into `root/Duplicates`
(creating the folder); a failed move is caught and logged, leaving the state
unchanged.  No action is recorded and no counter touched here (the caller
increments `duplicate_count`). -/
def handle_duplicate (s : Sorter) (photo : String) : Sorter :=
  match move_photo s.fs photo (joinPath s.root_dir "Duplicates") with
  | none => s
  | some (fs', _) => { s with fs := fs' }

/-- `PhotoSorter._move_to_trash`: `shutil.move(photo, trash_dir)` places the
file at `trash/basename`; any exception (e.g. a name collision inside the
trash) is caught and swallowed, leaving the file system unchanged. -/
def move_to_trash (s : Sorter) (photo : String) : Sorter :=
  match fsGet s.fs photo with
  | none => s
  | some info =>
      let dest := joinPath s.trash_dir (basename photo)
      if fsGet s.fs dest = none then
        { s with fs := fsSet (fsRemove s.fs photo) dest info }
      else s

/-- `PhotoSorter._undo_last_action`: no-op on an absent or empty history;
otherwise reverse the last recorded action when its destination file still
exists (`shutil.move(new_path, old_path)`, decrement the matching counter,
step the cursor back, pop the history); when the destination is missing,
report and change nothing. -/
def undo_last_action (s : Sorter) : Sorter :=
  match s.state.action_history with
  | none => s
  | some hist =>
      match hist.getLast? with
      | none => s
      | some last =>
          if last.action = "moved" then
            match fsGet s.fs last.new_path with
            | none => s
            | some info =>
                { s with
                  fs := fsSet (fsRemove s.fs last.new_path) last.old_path info,
                  sorted_count := s.sorted_count - 1,
                  current_index := s.current_index - 1,
                  state := pop_last_action s.state }
          else if last.action = "deleted" then
            match fsGet s.fs last.new_path with
            | none => s
            | some info =>
                { s with
                  fs := fsSet (fsRemove s.fs last.new_path) last.old_path info,
                  deleted_count := s.deleted_count - 1,
                  current_index := s.current_index - 1,
                  state := pop_last_action s.state }
          else s

/-- The result string returned by `_handle_choice`. -/
inductive ActionResult where
  | moved
  | skipped
  | deleted
  | dup
  | retry
  | quit
deriving DecidableEq, Repr

/-- `PhotoSorter._handle_choice`: dispatch on the keypress, performing the
file operation and recording the action for moves and deletes; every error
path returns `retry`. -/
def handle_choice (s : Sorter) (c : Choice) (photo : String) :
    ActionResult × Sorter :=
  match c with
  | .digit n =>
      let folder_index : Int := (n : Int) - 1
      if 0 ≤ folder_index then
        match s.folders.get? folder_index.toNat with
        | none => (.retry, s)
        | some folder_name =>
            let dest_folder := joinPath s.root_dir folder_name
            match move_photo s.fs photo dest_folder with
            | none => (.retry, s)
            | some (fs', new_path) =>
                (.moved,
                 { s with
                   fs := fs',
                   state := add_action_to_history s.state
                     { action := "moved", old_path := photo, new_path := new_path } })
      else (.retry, s)
  | .newFolder name? =>
      match name? with
      | none => (.retry, s)
      | some name =>
          if folderNameValid name ∧ name.trim ∉ s.folders then
            let folder_name := name.trim
            let dest_folder := joinPath s.root_dir folder_name
            let s1 := { s with folders := s.folders ++ [folder_name] }
            match move_photo s1.fs photo dest_folder with
            | none => (.retry, s1)
            | some (fs', new_path) =>
                (.moved,
                 { s1 with
                   fs := fs',
                   state := add_action_to_history s1.state
                     { action := "moved", old_path := photo, new_path := new_path } })
          else (.retry, s)
  | .skip => (.skipped, s)
  | .dup => (.dup, s)
  | .delete confirmed =>
      if confirmed then
        let s1 := move_to_trash s photo
        let trash_file_path := joinPath s.trash_dir (basename photo)
        (.deleted,
         { s1 with
           state := add_action_to_history s1.state
             { action := "deleted", old_path := photo,
               new_path := trash_file_path } })
      else (.retry, s)
  | .undo => (.retry, undo_last_action s)
  | .quit => (.quit, s)
  | .invalid => (.retry, s)

/-- Outcome of one body of the `while` loop in `_sorting_loop`:
continue with the next iteration, `break` after a quit, or an unhandled
`IndexError` from `images[current_index]` (propagates out of the loop). -/
inductive StepResult where
  | next (s : Sorter)
  | stop (s : Sorter)
  | crash (s : Sorter)
deriving DecidableEq, Repr

/-- The state carried by a `StepResult`. -/
def StepResult.sorter : StepResult → Sorter
  | .next s => s
  | .stop s => s
  | .crash s => s

/-- One body of the `while current_index < len(images)` loop of
`PhotoSorter._sorting_loop`, to be run only when the guard holds:
look up the current photo, silently advance past a vanished file, auto-move
a detected duplicate when enabled, otherwise open the viewer (a failure
advances silently), take the user's choice through `_handle_choice`, and
apply the per-result counter and cursor updates.  Also reports whether this
iteration was a silent advance (vanished file or viewer failure): a step
that moves the cursor without touching any counter. -/
def stepIter (s : Sorter) (env : Env) : StepResult × Bool :=
  match pyGet s.images s.current_index with
  | none => (.crash s, false)
  | some photo =>
      if fsGet s.fs photo = none then
        (.next { s with current_index := s.current_index + 1 }, true)
      else
        let dup := is_duplicate s.avail s.fs (compute_perceptual_hash s.fs)
          photo s.hash_db s.duplicate_threshold
        if dup.1 ∧ s.auto_move_duplicates then
          let s1 := handle_duplicate s photo
          (.next { s1 with
                   duplicate_count := s1.duplicate_count + 1,
                   current_index := s1.current_index + 1 }, false)
        else if ¬ env.viewerOk then
          (.next { s with current_index := s.current_index + 1 }, true)
        else
          match handle_choice s env.choice photo with
          | (.quit, s1) => (.stop s1, false)
          | (.moved, s1) =>
              let s2 := { s1 with
                          hash_db := add_to_hash_db s1.avail s1.root_dir s1.fs
                            photo s1.hash_db }
              (.next { s2 with
                       sorted_count := s2.sorted_count + 1,
                       current_index := s2.current_index + 1 }, false)
          | (.skipped, s1) =>
              (.next { s1 with
                       skipped_count := s1.skipped_count + 1,
                       state := add_skipped_file s1.state photo,
                       current_index := s1.current_index + 1 }, false)
          | (.deleted, s1) =>
              (.next { s1 with
                       deleted_count := s1.deleted_count + 1,
                       current_index := s1.current_index + 1 }, false)
          | (.dup, s1) =>
              let s2 := handle_duplicate s1 photo
              (.next { s2 with
                       duplicate_count := s2.duplicate_count + 1,
                       current_index := s2.current_index + 1 }, false)
          | (.retry, s1) => (.next s1, false)

/-- Run `_sorting_loop` under a script of per-iteration environments,
counting the silent advances (vanished files and viewer failures).  The loop
ends when the `while` guard fails, the user quits, the script is exhausted
(session still sitting at the menu), or an exception escapes. -/
def runScript : Sorter → List Env → Sorter × Nat
  | s, [] => (s, 0)
  | s, env :: rest =>
      if s.current_index < (s.images.length : Int) then
        match stepIter s env with
        | (.next s1, silent) =>
            let r := runScript s1 rest
            (r.1, r.2 + (if silent then 1 else 0))
        | (.stop s1, _) => (s1, 0)
        | (.crash s1, _) => (s1, 0)
      else (s, 0)

/-- A fresh `PhotoSorter` right after `__init__`, `load_images` and
`load_hash_database` on a directory with no prior `.photosorter` state:
all counters zero, cursor zero, empty history. -/
def initSorter (root : String) (images : List String) (fs : FS)
    (folders : List String) (db : HashDB)
    (auto : Bool) (threshold : Int) (avail : Bool) : Sorter :=
  { root_dir := root, images := images, current_index := 0,
    sorted_count := 0, skipped_count := 0, deleted_count := 0,
    duplicate_count := 0, state := freshState, hash_db := db,
    fs := fs, folders := folders, auto_move_duplicates := auto,
    duplicate_threshold := threshold, avail := avail }

/-- The conserved quantity of spec §8: the four counters plus the number of
images not yet processed. -/
def measure (s : Sorter) : Int :=
  s.sorted_count + s.skipped_count + s.deleted_count + s.duplicate_count +
    ((s.images.length : Int) - s.current_index)

/-! ## Concrete scenarios used as evaluation inputs -/

/-- Two byte-identical images (equal digests) under root `R`. -/
def twinFS : FS := [("R/x", ⟨"h", none⟩), ("R/y", ⟨"h", none⟩)]

/-- Fresh session over the two identical images, one event folder
`Vacation`, auto-duplicate moving on. -/
def twinSorter : Sorter :=
  initSorter "R" ["R/x", "R/y"] twinFS ["Vacation"] [] true 5 false

/-- Sort both photos into folder 1 (the viewer succeeding). -/
def twinScript : List Env := [⟨true, .digit 1⟩, ⟨true, .digit 1⟩]

/-- A session over a single scanned image whose file has vanished before
being presented. -/
def vanishedSorter : Sorter := initSorter "R" ["R/x"] [] [] [] true 5 false

/-- A sample moved action and a distinct one. -/
def actA : Action := ⟨"moved", "R/x", "R/Vacation/x"⟩

/-- A second, different recorded action. -/
def actB : Action := ⟨"moved", "R/y", "R/Vacation/y"⟩

/-- Session state whose history holds `actA` then `actB`: `actA` is an
older, non-most-recent entry. -/
def histState : SessionState := ⟨0, 0, 0, 0, 0, some [], some [actA, actB]⟩

/-- A sorter whose last recorded action is a move whose destination file
still exists: the undo success case. -/
def undoableSorter : Sorter :=
  { twinSorter with
    current_index := 1, sorted_count := 1,
    fs := [("R/Vacation/x", ⟨"h", none⟩), ("R/y", ⟨"h", none⟩)],
    state := { freshState with action_history := some [actA] } }

/-- A sorter whose last recorded action points at a destination that no
longer exists: the undo failure case. -/
def brokenUndoSorter : Sorter :=
  { twinSorter with
    current_index := 1, sorted_count := 1, fs := [("R/y", ⟨"h", none⟩)],
    state := { freshState with action_history := some [actA] } }

/-- A two-record hash database with distinct digests and perceptual codes,
used to exercise the lookup paths on concrete data. -/
def sampleDB : HashDB :=
  [("a.jpg", ⟨some "s1", some [true, false]⟩),
   ("b.jpg", ⟨some "s2", some [true, true]⟩)]

/-! ## Basic lemmas about the store operations -/

theorem fsGet_fsSet_self (fs : FS) (p : String) (i : FileInfo) :
    fsGet (fsSet fs p i) p = some i := by
  simp [fsSet, fsGet]

theorem dbInsert_idem (l : HashDB) (k : String) (v : HashRecord) :
    dbInsert (dbInsert l k v) k v = dbInsert l k v := by
  induction l with
  | nil => simp [dbInsert]
  | cons e rest ih =>
      obtain ⟨k', v'⟩ := e
      by_cases h : k' = k
      · simp [dbInsert, h]
      · simp [dbInsert, h, ih]

theorem dbFind_dbInsert_self (l : HashDB) (k : String) (v : HashRecord) :
    dbFind (dbInsert l k v) k = some v := by
  induction l with
  | nil => simp [dbInsert, dbFind]
  | cons e rest ih =>
      obtain ⟨k', v'⟩ := e
      by_cases h : k' = k
      · simp [dbInsert, dbFind, h]
      · simp [dbInsert, dbFind, h, ih]

/-! ## Claim theorems -/

/-- C5, counterexample: `actA` equals the older, non-most-recent history
entry of `histState`, and `add_action_to_history` does not append it — the
history stays `[actA, actB]` instead of growing to `[actA, actB, actA]` as
the claim requires. -/
theorem record_action_counterexample :
    (add_action_to_history histState actA).action_history = some [actA, actB] ∧
    some [actA, actB] ≠ some [actA, actB, actA] := by
  constructor
  · decide
  · decide

/-- C5, amended: `add_action_to_history` appends the action unless an equal
action already occurs anywhere in the history (not merely as the most
recent entry); no other field of the session state changes. -/
theorem record_action_dedupes_whole_history (s : SessionState) (a : Action) :
    (a ∈ s.action_history.getD [] →
      (add_action_to_history s a).action_history =
        some (s.action_history.getD [])) ∧
    (a ∉ s.action_history.getD [] →
      (add_action_to_history s a).action_history =
        some (s.action_history.getD [] ++ [a])) ∧
    (add_action_to_history s a).last_index = s.last_index ∧
    (add_action_to_history s a).sorted_count = s.sorted_count ∧
    (add_action_to_history s a).skipped_count = s.skipped_count ∧
    (add_action_to_history s a).deleted_count = s.deleted_count ∧
    (add_action_to_history s a).duplicate_count = s.duplicate_count ∧
    (add_action_to_history s a).skipped_files = s.skipped_files := by
  unfold add_action_to_history
  by_cases h : a ∈ s.action_history.getD [] <;> simp [h]

/-- Witness: at `histState`, `actA` occurs in the history, so the amended
theorem yields an unchanged history. -/
theorem record_action_dedupes_whole_history_witness :
    actA ∈ histState.action_history.getD [] ∧
    (add_action_to_history histState actA).action_history =
      some (histState.action_history.getD []) :=
  ⟨by decide,
   (record_action_dedupes_whole_history histState actA).1 (by decide)⟩

/-- C6: evaluation of `load_state` across the malformed-state-file cases.
A missing file yields the full zero defaults.  A file that raises
`IOError` or fails JSON parsing is caught: the function warns and returns
the zero defaults — though with the `action_history` key absent rather
than present-and-empty.  But a file holding valid JSON that is not an
object escapes with an uncaught `TypeError` from the default-filling loop
(state_manager.py:70-72 — only `JSONDecodeError` and `IOError` are caught
at line 76), and a file whose bytes are not valid UTF-8 escapes with
`UnicodeDecodeError` from `json.load`: for those malformed files the
claim's "warns and never raises" fails and the session crashes. -/
theorem load_state_raises_on_malformed :
    load_state .jsonNonObject = .error .typeError ∧
    load_state .badEncoding = .error .unicodeDecodeError ∧
    load_state .missing = .ok freshState ∧
    load_state .notJson =
      .ok { last_index := 0, sorted_count := 0, skipped_count := 0,
            deleted_count := 0, duplicate_count := 0,
            skipped_files := some [], action_history := none } ∧
    load_state .unreadable = load_state .notJson :=
  ⟨rfl, rfl, rfl, rfl, rfl⟩

/-- C9: adding the same `(path, content_hash, perceptual_hash)` twice
produces literally the same database as adding it once — hence every
`get_by_sha256` and `find_similar_by_phash` query answers identically — and
`add_hash` keys the inserted record by the relativised path. -/
theorem add_hash_idempotent (root : String) (db : HashDB) (fp sha : String)
    (ph : Option (List Bool)) :
    add_hash root (add_hash root db fp sha ph) fp sha ph =
      add_hash root db fp sha ph ∧
    dbFind (add_hash root db fp sha ph) (relKey root fp) =
      some { sha256 := some sha, phash := ph } ∧
    (∀ q, get_by_sha256 (add_hash root (add_hash root db fp sha ph) fp sha ph) q =
        get_by_sha256 (add_hash root db fp sha ph) q) ∧
    (∀ avail query t,
        find_similar_by_phash avail
            (add_hash root (add_hash root db fp sha ph) fp sha ph) query t =
          find_similar_by_phash avail (add_hash root db fp sha ph) query t) := by
  have hidem := dbInsert_idem db (relKey root fp)
    { sha256 := some sha, phash := ph }
  refine ⟨hidem, dbFind_dbInsert_self _ _ _, fun q => ?_, fun avail query t => ?_⟩
  · unfold add_hash
    rw [hidem]
  · unfold add_hash
    rw [hidem]

/-- C8: when the file's content digest is in the index, classification
reports Exact immediately — the result is independent of the
perceptual-hash oracle, so no perceptual hash is computed; and when content
hashing fails (unreadable file), classification returns the no-duplicate
triple instead of raising. -/
theorem is_duplicate_exact_and_unreadable :
    (∀ (avail : Bool) (fs : FS) (pfs : String → Option (List Bool))
        (fp : String) (db : HashDB) (t : Int),
        compute_file_hash fs fp = none →
        is_duplicate avail fs pfs fp db t = (false, none, none)) ∧
    (∀ (avail : Bool) (fs : FS) (pfs pfs2 : String → Option (List Bool))
        (fp : String) (db : HashDB) (t : Int) (sha orig : String),
        compute_file_hash fs fp = some sha →
        get_by_sha256 db sha = some orig →
        is_duplicate avail fs pfs fp db t = (true, some "exact", some orig) ∧
        is_duplicate avail fs pfs fp db t =
          is_duplicate avail fs pfs2 fp db t) := by
  constructor
  · intro avail fs pfs fp db t h
    simp [is_duplicate, h]
  · intro avail fs pfs pfs2 fp db t sha orig h1 h2
    constructor
    · simp [is_duplicate, h1, h2]
    · simp [is_duplicate, h1, h2]

/-- Witness: `R/x` exists with digest `h`, the index already knows digest
`h` under `o.jpg`, and classification reports the exact duplicate. -/
theorem is_duplicate_exact_and_unreadable_witness :
    compute_file_hash twinFS "R/x" = some "h" ∧
    get_by_sha256 [("o.jpg", ⟨some "h", none⟩)] "h" = some "o.jpg" ∧
    is_duplicate true twinFS (compute_perceptual_hash twinFS) "R/x"
        [("o.jpg", ⟨some "h", none⟩)] 5 =
      (true, some "exact", some "o.jpg") :=
  ⟨by decide, by decide,
   (is_duplicate_exact_and_unreadable.2 true twinFS
      (compute_perceptual_hash twinFS) (compute_perceptual_hash twinFS)
      "R/x" [("o.jpg", ⟨some "h", none⟩)] 5 "h" "o.jpg"
      (by decide) (by decide)).1⟩

/-- C7: undo on an absent or empty action history leaves the sorter
entirely unchanged, and undo whose most recent action's recorded
destination file no longer exists also leaves the sorter unchanged — the
history entry is never dropped and no counter or cursor moves. -/
theorem undo_failure_preserves_state :
    (∀ s : Sorter, s.state.action_history = none → undo_last_action s = s) ∧
    (∀ s : Sorter, s.state.action_history = some [] →
        undo_last_action s = s) ∧
    (∀ (s : Sorter) (hist : List Action) (a : Action),
        s.state.action_history = some hist → hist.getLast? = some a →
        fsGet s.fs a.new_path = none → undo_last_action s = s) := by
  refine ⟨?_, ?_, ?_⟩
  · intro s h
    simp [undo_last_action, h]
  · intro s h
    simp [undo_last_action, h]
  · intro s hist a h1 h2 h3
    by_cases hm : a.action = "moved"
    · simp [undo_last_action, h1, h2, hm, h3]
    · by_cases hd : a.action = "deleted"
      · simp [undo_last_action, h1, h2, hm, hd, h3]
      · simp [undo_last_action, h1, h2, hm, hd]

/-- Witness: `brokenUndoSorter`'s recorded destination is gone, and undo
leaves it untouched. -/
theorem undo_failure_preserves_state_witness :
    brokenUndoSorter.state.action_history = some [actA] ∧
    undo_last_action brokenUndoSorter = brokenUndoSorter :=
  ⟨rfl,
   undo_failure_preserves_state.2.2 brokenUndoSorter [actA] actA rfl rfl
     (by decide)⟩

/-- C3: a successful undo of a most-recent Moved (resp. Deleted) action
whose destination file exists moves the destination back to the source
path, decrements exactly `sorted_count` (resp. `deleted_count`), pops
exactly that history entry, and steps the cursor back by one, leaving every
other field — in particular the other three counters — unchanged; the file
is found at the source path afterwards. -/
theorem undo_success_inverse :
    (∀ (s : Sorter) (h : List Action) (a : Action) (info : FileInfo),
        s.state.action_history = some (h ++ [a]) → a.action = "moved" →
        fsGet s.fs a.new_path = some info →
        undo_last_action s =
          { s with
            fs := fsSet (fsRemove s.fs a.new_path) a.old_path info,
            sorted_count := s.sorted_count - 1,
            current_index := s.current_index - 1,
            state := { s.state with action_history := some h } } ∧
        fsGet (undo_last_action s).fs a.old_path = some info) ∧
    (∀ (s : Sorter) (h : List Action) (a : Action) (info : FileInfo),
        s.state.action_history = some (h ++ [a]) → a.action = "deleted" →
        fsGet s.fs a.new_path = some info →
        undo_last_action s =
          { s with
            fs := fsSet (fsRemove s.fs a.new_path) a.old_path info,
            deleted_count := s.deleted_count - 1,
            current_index := s.current_index - 1,
            state := { s.state with action_history := some h } } ∧
        fsGet (undo_last_action s).fs a.old_path = some info) := by
  constructor
  · intro s h a info h1 hm hfs
    have hres : undo_last_action s =
        { s with
          fs := fsSet (fsRemove s.fs a.new_path) a.old_path info,
          sorted_count := s.sorted_count - 1,
          current_index := s.current_index - 1,
          state := { s.state with action_history := some h } } := by
      simp [undo_last_action, h1, List.getLast?_concat, hm, hfs,
        pop_last_action, List.dropLast_concat]
    exact ⟨hres, by rw [hres]; exact fsGet_fsSet_self _ _ _⟩
  · intro s h a info h1 hd hfs
    have hm : ¬ a.action = "moved" := by
      rw [hd]
      decide
    have hres : undo_last_action s =
        { s with
          fs := fsSet (fsRemove s.fs a.new_path) a.old_path info,
          deleted_count := s.deleted_count - 1,
          current_index := s.current_index - 1,
          state := { s.state with action_history := some h } } := by
      simp [undo_last_action, h1, List.getLast?_concat, hm, hd, hfs,
        pop_last_action, List.dropLast_concat]
    exact ⟨hres, by rw [hres]; exact fsGet_fsSet_self _ _ _⟩

/-- Witness: undoing the recorded move of `undoableSorter` restores the
file at its original path `R/x`. -/
theorem undo_success_inverse_witness :
    undoableSorter.state.action_history = some ([] ++ [actA]) ∧
    fsGet (undo_last_action undoableSorter).fs actA.old_path =
      some ⟨"h", none⟩ :=
  ⟨rfl,
   (undo_success_inverse.1 undoableSorter [] actA ⟨"h", none⟩ rfl rfl
      (by decide)).2⟩

/-! ## Conservation lemmas for the sorting loop -/

theorem handle_duplicate_fields (s : Sorter) (p : String) :
    (handle_duplicate s p).images = s.images ∧
    (handle_duplicate s p).current_index = s.current_index ∧
    (handle_duplicate s p).sorted_count = s.sorted_count ∧
    (handle_duplicate s p).skipped_count = s.skipped_count ∧
    (handle_duplicate s p).deleted_count = s.deleted_count ∧
    (handle_duplicate s p).duplicate_count = s.duplicate_count ∧
    (handle_duplicate s p).state = s.state := by
  unfold handle_duplicate
  rcases h : move_photo s.fs p (joinPath s.root_dir "Duplicates") with _ | ⟨fs2, np⟩ <;>
    simp

theorem move_to_trash_fields (s : Sorter) (p : String) :
    (move_to_trash s p).images = s.images ∧
    (move_to_trash s p).current_index = s.current_index ∧
    (move_to_trash s p).sorted_count = s.sorted_count ∧
    (move_to_trash s p).skipped_count = s.skipped_count ∧
    (move_to_trash s p).deleted_count = s.deleted_count ∧
    (move_to_trash s p).duplicate_count = s.duplicate_count ∧
    (move_to_trash s p).state = s.state := by
  unfold move_to_trash
  rcases h : fsGet s.fs p with _ | info
  · simp
  · by_cases hd : fsGet s.fs (joinPath s.trash_dir (basename p)) = none <;> simp [hd]

theorem measure_undo (s : Sorter) :
    measure (undo_last_action s) = measure s ∧
    (undo_last_action s).images = s.images ∧
    (undo_last_action s).duplicate_count = s.duplicate_count := by
  unfold undo_last_action
  rcases h : s.state.action_history with _ | hist
  · simp
  · rcases hg : hist.getLast? with _ | a
    · simp [hg]
    · by_cases hm : a.action = "moved"
      · rcases hf : fsGet s.fs a.new_path with _ | info
        · simp [hg, hm, hf]
        · refine ⟨?_, by simp [hg, hm, hf], by simp [hg, hm, hf]⟩
          simp only [hg, hm, hf, if_true, if_pos]
          simp [measure]
          ring
      · by_cases hd : a.action = "deleted"
        · rcases hf : fsGet s.fs a.new_path with _ | info
          · simp [hg, hm, hd, hf]
          · refine ⟨?_, by simp [hg, hm, hd, hf], by simp [hg, hm, hd, hf]⟩
            simp only [hg, hm, hd, hf, if_false, if_neg, if_pos]
            simp [measure, hm, hd]
            ring
        · simp [hg, hm, hd]

theorem measure_handle_choice (s : Sorter) (c : Choice) (p : String) :
    measure (handle_choice s c p).2 = measure s ∧
    (handle_choice s c p).2.images = s.images ∧
    (handle_choice s c p).2.duplicate_count = s.duplicate_count := by
  cases c with
  | digit n =>
      unfold handle_choice
      dsimp only
      split
      · split
        · simp
        · split
          · simp
          · simp [measure]
      · simp
  | newFolder name? =>
      rcases name? with _ | name
      · simp [handle_choice]
      · unfold handle_choice
        dsimp only
        split
        · split
          · simp [measure]
          · simp [measure]
        · simp
  | skip => simp [handle_choice]
  | dup => simp [handle_choice]
  | delete confirmed =>
      cases confirmed
      · simp [handle_choice]
      · have ht := move_to_trash_fields s p
        unfold handle_choice
        simp only [ite_true]
        refine ⟨?_, ?_, ?_⟩
        · simp [measure, ht.1, ht.2.1, ht.2.2.1, ht.2.2.2.1, ht.2.2.2.2.1,
            ht.2.2.2.2.2.1]
        · simp [ht.1]
        · simp [ht.2.2.2.2.2.1]
  | undo =>
      have hu := measure_undo s
      simp [handle_choice, hu.1, hu.2.1, hu.2.2]
  | quit => simp [handle_choice]
  | invalid => simp [handle_choice]

/-- One loop iteration conserves the measure up to the silent-advance flag:
a vanished file or viewer failure burns one unit, every other step leaves
the measure intact. -/
theorem measure_stepIter (s : Sorter) (env : Env) :
    (match stepIter s env with
     | (.next s1, silent) =>
         measure s1 + (if silent then (1 : Int) else 0) = measure s
     | (.stop s1, _) => measure s1 = measure s
     | (.crash s1, _) => measure s1 = measure s) ∧
    (stepIter s env).1.sorter.images = s.images := by
  rcases he : stepIter s env with ⟨res, silent⟩
  unfold stepIter at he
  rcases hp : pyGet s.images s.current_index with _ | photo <;> rw [hp] at he
  · injection he with h1 h2
    subst h1
    subst h2
    simp [StepResult.sorter]
  · dsimp only at he
    split at he
    · injection he with h1 h2
      subst h1
      subst h2
      constructor
      · simp [measure]
        ring
      · simp [StepResult.sorter]
    · split at he
      · injection he with h1 h2
        subst h1
        subst h2
        have hd := handle_duplicate_fields s photo
        constructor
        · simp [measure, hd.1, hd.2.1, hd.2.2.1,
            hd.2.2.2.1, hd.2.2.2.2.1, hd.2.2.2.2.2.1]
          ring
        · simp [StepResult.sorter, hd.1]
      · split at he
        · injection he with h1 h2
          subst h1
          subst h2
          constructor
          · simp [measure]
            ring
          · simp [StepResult.sorter]
        · split at he <;>
            rename_i s1 hh <;>
            injection he with h1 h2 <;>
            subst h1 <;>
            subst h2 <;>
            have hc := measure_handle_choice s env.choice photo <;>
            rw [hh] at hc <;>
            have hc1 : measure s1 = measure s := hc.1 <;>
            have hc2 : s1.images = s.images := hc.2.1 <;>
            have hc1' : s1.sorted_count + s1.skipped_count + s1.deleted_count +
              s1.duplicate_count +
              ((s.images.length : Int) - s1.current_index) =
              s.sorted_count + s.skipped_count + s.deleted_count +
              s.duplicate_count +
              ((s.images.length : Int) - s.current_index) := by
                have hq := hc1
                simp only [measure, hc2] at hq
                exact hq
          · constructor
            · simpa using hc1
            · simp [StepResult.sorter, hc2]
          · constructor
            · simp only [measure]
              simp [hc2]
              linarith [hc1']
            · simp [StepResult.sorter, hc2]
          · constructor
            · simp only [measure]
              simp [hc2]
              linarith [hc1']
            · simp [StepResult.sorter, hc2]
          · constructor
            · simp only [measure]
              simp [hc2]
              linarith [hc1']
            · simp [StepResult.sorter, hc2]
          · have hd := handle_duplicate_fields s1 photo
            constructor
            · simp only [measure]
              simp [hd.1, hd.2.1, hd.2.2.1, hd.2.2.2.1, hd.2.2.2.2.1,
                hd.2.2.2.2.2.1, hc2]
              linarith [hc1']
            · simp [StepResult.sorter, hd.1, hc2]
          · constructor
            · simpa using hc1
            · simp [StepResult.sorter, hc2]

/-- Running any script conserves the measure up to the number of silent
advances it performs. -/
theorem measure_runScript (s : Sorter) (script : List Env) :
    measure (runScript s script).1 + ((runScript s script).2 : Int) =
      measure s := by
  induction script generalizing s with
  | nil => simp [runScript]
  | cons env rest ih =>
      unfold runScript
      by_cases hg : s.current_index < (s.images.length : Int)
      · simp only [hg, if_true]
        have hstep := (measure_stepIter s env).1
        rcases he : stepIter s env with ⟨res, silent⟩
        rw [he] at hstep
        cases res with
        | next s1 =>
            have hih := ih s1
            dsimp only at hstep ⊢
            cases silent
            · simp at hstep ⊢
              linarith [hih, hstep]
            · simp at hstep ⊢
              linarith [hih, hstep]
        | stop s1 =>
            dsimp only at hstep ⊢
            push_cast
            linarith [hstep]
        | crash s1 =>
            dsimp only at hstep ⊢
            push_cast
            linarith [hstep]
      · simp [hg]

/-- One loop iteration never decreases the duplicate counter. -/
theorem duplicate_count_stepIter (s : Sorter) (env : Env) :
    s.duplicate_count ≤ (stepIter s env).1.sorter.duplicate_count := by
  rcases he : stepIter s env with ⟨res, silent⟩
  unfold stepIter at he
  rcases hp : pyGet s.images s.current_index with _ | photo <;> rw [hp] at he
  · injection he with h1 h2
    subst h1
    simp [StepResult.sorter]
  · dsimp only at he
    split at he
    · injection he with h1 h2
      subst h1
      simp [StepResult.sorter]
    · split at he
      · injection he with h1 h2
        subst h1
        have hd := handle_duplicate_fields s photo
        simp [StepResult.sorter, hd.2.2.2.2.2.1]
      · split at he
        · injection he with h1 h2
          subst h1
          simp [StepResult.sorter]
        · split at he <;>
            rename_i s1 hh <;>
            injection he with h1 h2 <;>
            subst h1 <;>
            have hc := measure_handle_choice s env.choice photo <;>
            rw [hh] at hc <;>
            have hc3 : s1.duplicate_count = s.duplicate_count := hc.2.2
          · simp [StepResult.sorter, hc3]
          · simp [StepResult.sorter, hc3]
          · simp [StepResult.sorter, hc3]
          · simp [StepResult.sorter, hc3]
          · have hd := handle_duplicate_fields s1 photo
            simp [StepResult.sorter, hd.2.2.2.2.2.1, hc3]
          · simp [StepResult.sorter, hc3]

/-- Across a whole run the duplicate counter never decreases. -/
theorem duplicate_count_runScript (s : Sorter) (script : List Env) :
    s.duplicate_count ≤ (runScript s script).1.duplicate_count := by
  induction script generalizing s with
  | nil => simp [runScript]
  | cons env rest ih =>
      unfold runScript
      by_cases hg : s.current_index < (s.images.length : Int)
      · simp only [hg, if_true]
        have hstep := duplicate_count_stepIter s env
        rcases he : stepIter s env with ⟨res, silent⟩
        rw [he] at hstep
        cases res with
        | next s1 =>
            have hih := ih s1
            simp only [StepResult.sorter] at hstep
            dsimp only
            exact le_trans hstep hih
        | stop s1 => simpa [StepResult.sorter] using hstep
        | crash s1 => simpa [StepResult.sorter] using hstep
      · simp [hg]

/-- C2, counterexample: a session over a single scanned image whose file
has vanished before presentation — the loop advances the cursor without
incrementing any counter, so after this one-step prefix the claimed sum is
0 while the total number of scanned images is 1. -/
theorem counter_conservation_counterexample :
    measure (runScript vanishedSorter [⟨true, .skip⟩]).1 ≠
      (vanishedSorter.images.length : Int) := by
  decide

/-- C2, amended: from a fresh session over any scanned image list, after
any prefix of any run, `sorted_count + skipped_count + deleted_count +
duplicate_count + (total - cursor)` equals the total number of images
scanned minus the number of silent advances in that prefix — the steps
(vanished file, viewer failure) that move the cursor without touching any
counter; for prefixes without such steps the spec's sum is exact. -/
theorem counter_conservation (root : String) (images : List String) (fs : FS)
    (folders : List String) (db : HashDB) (auto : Bool) (t : Int)
    (avail : Bool) (script : List Env) :
    measure (runScript (initSorter root images fs folders db auto t avail)
        script).1 +
      ((runScript (initSorter root images fs folders db auto t avail)
        script).2 : Int) =
      (images.length : Int) := by
  rw [measure_runScript]
  simp [measure, initSorter]

/-- C10: moving a photo to the Duplicates folder — auto-detected or chosen
with the duplicate key — never appends to the action history
(`_handle_duplicate` leaves the whole session dict unchanged, and the
surrounding loop records nothing for duplicate steps), so undo never has a
duplicate entry to reverse; undo leaves `duplicate_count` unchanged, no
menu choice changes it, and across any script it never decreases. -/
theorem duplicate_moves_unrecorded :
    (∀ (s : Sorter) (p : String), (handle_duplicate s p).state = s.state) ∧
    (∀ s : Sorter,
        (undo_last_action s).duplicate_count = s.duplicate_count) ∧
    (∀ (s : Sorter) (c : Choice) (p : String),
        (handle_choice s c p).2.duplicate_count = s.duplicate_count) ∧
    (∀ (s : Sorter) (env : Env),
        s.duplicate_count ≤ (stepIter s env).1.sorter.duplicate_count) ∧
    (∀ (s : Sorter) (script : List Env),
        s.duplicate_count ≤ (runScript s script).1.duplicate_count) :=
  ⟨fun s p => (handle_duplicate_fields s p).2.2.2.2.2.2,
   fun s => (measure_undo s).2.2,
   fun s c p => (measure_handle_choice s c p).2.2,
   duplicate_count_stepIter,
   duplicate_count_runScript⟩

/-! ## Analysis of the perceptual-hash scan -/

/-- The incumbent distance never increases along the scan. -/
theorem findSimilarAux_snd_le (q : List Bool) (l : HashDB)
    (b : Option String × Int) : (findSimilarAux q l b).2 ≤ b.2 := by
  induction l generalizing b with
  | nil => simp [findSimilarAux]
  | cons hd rest ih =>
      obtain ⟨fp, data⟩ := hd
      rcases hp : data.phash with _ | sp
      · simpa [findSimilarAux, hp] using ih b
      · by_cases hlt : (hamming q sp : Int) < b.2
        · have hred : findSimilarAux q ((fp, data) :: rest) b =
              findSimilarAux q rest (some fp, (hamming q sp : Int)) := by
            simp [findSimilarAux, hp, hlt]
          rw [hred]
          exact le_trans (ih _) (le_of_lt hlt)
        · have hred : findSimilarAux q ((fp, data) :: rest) b =
              findSimilarAux q rest b := by
            simp [findSimilarAux, hp, hlt]
          rw [hred]
          exact ih b

/-- The final incumbent distance is a lower bound on the distance to every
stored code. -/
theorem findSimilarAux_min (q : List Bool) (l : HashDB)
    (b : Option String × Int) :
    ∀ e ∈ l, ∀ sp, e.2.phash = some sp →
      (findSimilarAux q l b).2 ≤ (hamming q sp : Int) := by
  induction l generalizing b with
  | nil => simp
  | cons hd rest ih =>
      obtain ⟨fp, data⟩ := hd
      intro e he sp hsp
      rcases List.mem_cons.1 he with he | he
      · subst he
        dsimp at hsp
        by_cases hlt : (hamming q sp : Int) < b.2
        · have hred : findSimilarAux q ((fp, data) :: rest) b =
              findSimilarAux q rest (some fp, (hamming q sp : Int)) := by
            simp [findSimilarAux, hsp, hlt]
          rw [hred]
          exact findSimilarAux_snd_le q rest _
        · have hred : findSimilarAux q ((fp, data) :: rest) b =
              findSimilarAux q rest b := by
            simp [findSimilarAux, hsp, hlt]
          rw [hred]
          exact le_trans (findSimilarAux_snd_le q rest b) (not_lt.1 hlt)
      · rcases hp : data.phash with _ | sp0
        · have hred : findSimilarAux q ((fp, data) :: rest) b =
              findSimilarAux q rest b := by
            simp [findSimilarAux, hp]
          rw [hred]
          exact ih b e he sp hsp
        · by_cases hlt : (hamming q sp0 : Int) < b.2
          · have hred : findSimilarAux q ((fp, data) :: rest) b =
                findSimilarAux q rest (some fp, (hamming q sp0 : Int)) := by
              simp [findSimilarAux, hp, hlt]
            rw [hred]
            exact ih _ e he sp hsp
          · have hred : findSimilarAux q ((fp, data) :: rest) b =
                findSimilarAux q rest b := by
              simp [findSimilarAux, hp, hlt]
            rw [hred]
            exact ih b e he sp hsp

/-- Either the scan returns the incumbent untouched, or it returns a
strictly better match achieved by the first stored entry at that distance:
every earlier entry with a stored code sits strictly farther away. -/
theorem findSimilarAux_first (q : List Bool) (l : HashDB)
    (b : Option String × Int) :
    findSimilarAux q l b = b ∨
      ((findSimilarAux q l b).2 < b.2 ∧
       ∃ fp, (findSimilarAux q l b).1 = some fp ∧
       ∃ l₁ rec l₂ sp, l = l₁ ++ (fp, rec) :: l₂ ∧ rec.phash = some sp ∧
         (hamming q sp : Int) = (findSimilarAux q l b).2 ∧
         ∀ e ∈ l₁, ∀ sp2, e.2.phash = some sp2 →
           (findSimilarAux q l b).2 < (hamming q sp2 : Int)) := by
  induction l generalizing b with
  | nil => left; rfl
  | cons hd rest ih =>
      obtain ⟨fp0, data⟩ := hd
      rcases hp : data.phash with _ | sp0
      · have hred : findSimilarAux q ((fp0, data) :: rest) b =
            findSimilarAux q rest b := by
          simp [findSimilarAux, hp]
        rw [hred]
        rcases ih b with h | ⟨hlt, fp, h1, l₁, rec, l₂, sp, hsplit, hrec, hham, hbefore⟩
        · left; exact h
        · right
          refine ⟨hlt, fp, h1, (fp0, data) :: l₁, rec, l₂, sp, by rw [hsplit]; rfl,
            hrec, hham, ?_⟩
          intro e he sp2 hsp2
          rcases List.mem_cons.1 he with he | he
          · subst he
            dsimp at hsp2
            rw [hp] at hsp2
            exact absurd hsp2 (by simp)
          · exact hbefore e he sp2 hsp2
      · by_cases hlt : (hamming q sp0 : Int) < b.2
        · have hred : findSimilarAux q ((fp0, data) :: rest) b =
              findSimilarAux q rest (some fp0, (hamming q sp0 : Int)) := by
            simp [findSimilarAux, hp, hlt]
          rw [hred]
          rcases ih (some fp0, (hamming q sp0 : Int)) with
            h | ⟨hlt2, fp, h1, l₁, rec, l₂, sp, hsplit, hrec, hham, hbefore⟩
          · right
            rw [h]
            exact ⟨hlt, fp0, rfl, [], data, rest, sp0, rfl, hp, rfl, by simp⟩
          · right
            have hlt2' : (findSimilarAux q rest
                (some fp0, (hamming q sp0 : Int))).2 < (hamming q sp0 : Int) := hlt2
            refine ⟨lt_trans hlt2' hlt, fp, h1, (fp0, data) :: l₁, rec, l₂, sp,
              by rw [hsplit]; rfl, hrec, hham, ?_⟩
            intro e he sp2 hsp2
            rcases List.mem_cons.1 he with he | he
            · subst he
              dsimp at hsp2
              rw [hp] at hsp2
              have : sp2 = sp0 := by injection hsp2 with h3; exact h3.symm
              rw [this]
              exact hlt2'
            · exact hbefore e he sp2 hsp2
        · have hred : findSimilarAux q ((fp0, data) :: rest) b =
              findSimilarAux q rest b := by
            simp [findSimilarAux, hp, hlt]
          rw [hred]
          rcases ih b with h | ⟨hlt2, fp, h1, l₁, rec, l₂, sp, hsplit, hrec, hham, hbefore⟩
          · left; exact h
          · right
            refine ⟨hlt2, fp, h1, (fp0, data) :: l₁, rec, l₂, sp,
              by rw [hsplit]; rfl, hrec, hham, ?_⟩
            intro e he sp2 hsp2
            rcases List.mem_cons.1 he with he | he
            · subst he
              dsimp at hsp2
              rw [hp] at hsp2
              have : sp2 = sp0 := by injection hsp2 with h3; exact h3.symm
              rw [this]
              exact lt_of_lt_of_le hlt2 (not_lt.1 hlt)
            · exact hbefore e he sp2 hsp2

/-- C4: `find_similar_by_phash` never returns a match with distance above
the threshold; it returns none when no stored record has a perceptual hash
and when every stored code is beyond the threshold; a returned match
realises the minimum hamming distance over all stored codes and is the
first record in storage order achieving it (every earlier record with a
code is strictly farther, so ties resolve to the first encountered); and as
soon as some stored code lies within the threshold (stored keys being
non-empty path strings), a match is returned. -/
theorem find_similar_spec (db : HashDB) (q : List Bool) (t : Int) :
    (∀ (avail : Bool) (fp : String) (d : Int),
        find_similar_by_phash avail db q t = some (fp, d) → d ≤ t) ∧
    ((∀ e ∈ db, e.2.phash = none) →
        ∀ avail, find_similar_by_phash avail db q t = none) ∧
    ((∀ e ∈ db, ∀ sp, e.2.phash = some sp → t < (hamming q sp : Int)) →
        ∀ avail, find_similar_by_phash avail db q t = none) ∧
    (∀ fp d, find_similar_by_phash true db q t = some (fp, d) →
        (∀ e ∈ db, ∀ sp, e.2.phash = some sp → d ≤ (hamming q sp : Int)) ∧
        ∃ l₁ rec l₂ sp, db = l₁ ++ (fp, rec) :: l₂ ∧ rec.phash = some sp ∧
          (hamming q sp : Int) = d ∧
          ∀ e ∈ l₁, ∀ sp2, e.2.phash = some sp2 →
            d < (hamming q sp2 : Int)) ∧
    ((∀ e ∈ db, e.1 ≠ "") →
     (∃ e ∈ db, ∃ sp, e.2.phash = some sp ∧ (hamming q sp : Int) ≤ t) →
        ∃ fp d, find_similar_by_phash true db q t = some (fp, d)) := by
  have hfirst := findSimilarAux_first q db (none, t + 1)
  have hmin := findSimilarAux_min q db (none, t + 1)
  rcases hr : findSimilarAux q db (none, t + 1) with ⟨ofp, dd⟩
  rw [hr] at hfirst hmin
  refine ⟨?_, ?_, ?_, ?_, ?_⟩
  · intro avail fp d h
    cases avail
    · simp [find_similar_by_phash] at h
    · simp only [find_similar_by_phash, if_true, hr] at h
      rcases ofp with _ | fp0
      · simp at h
      · dsimp only at h
        split_ifs at h with hc
        obtain ⟨rfl, rfl⟩ : fp0 = fp ∧ dd = d := by
          simpa using h
        exact hc.2
  · intro hall avail
    cases avail
    · simp [find_similar_by_phash]
    · rcases hfirst with hb | ⟨_, fp, h1, l₁, rec, l₂, sp, hsplit, hrec, _, _⟩
      · have hofp : ofp = none := by
          have := congrArg Prod.fst hb
          simpa using this
        subst hofp
        simp [find_similar_by_phash, hr]
      · have hmem : (fp, rec) ∈ db := by
          rw [hsplit]
          exact List.mem_append_right _ (List.mem_cons_self _ _)
        have := hall (fp, rec) hmem
        dsimp at this
        rw [this] at hrec
        exact absurd hrec (by simp)
  · intro hall avail
    cases avail
    · simp [find_similar_by_phash]
    · rcases hfirst with hb | ⟨hlt, fp, h1, l₁, rec, l₂, sp, hsplit, hrec, hham, _⟩
      · have hofp : ofp = none := by
          have := congrArg Prod.fst hb
          simpa using this
        subst hofp
        simp [find_similar_by_phash, hr]
      · exfalso
        have hmem : (fp, rec) ∈ db := by
          rw [hsplit]
          exact List.mem_append_right _ (List.mem_cons_self _ _)
        have hgt := hall (fp, rec) hmem sp hrec
        have hdd : dd ≤ t := by
          have : dd < t + 1 := hlt
          omega
        rw [hham] at hgt
        omega
  · intro fp d h
    simp only [find_similar_by_phash, if_true, hr] at h
    rcases ofp with _ | fp0
    · simp at h
    · dsimp only at h
      split_ifs at h with hc
      obtain ⟨rfl, rfl⟩ : fp0 = fp ∧ dd = d := by
        simpa using h
      constructor
      · intro e he sp hsp
        exact hmin e he sp hsp
      · rcases hfirst with hb | ⟨_, fp1, h1, l₁, rec, l₂, sp, hsplit, hrec, hham, hbefore⟩
        · exfalso
          have := congrArg Prod.fst hb
          simp at this
        · have hfp1 : fp1 = fp0 := by
            have h1' := h1
            dsimp only at h1'
            injection h1' with h5
            exact h5.symm
          subst hfp1
          exact ⟨l₁, rec, l₂, sp, hsplit, hrec, hham, hbefore⟩
  · intro hkeys hex
    rcases hex with ⟨e, he, sp, hsp, hle⟩
    have hle2 : dd ≤ (hamming q sp : Int) := hmin e he sp hsp
    rcases hfirst with hb | ⟨_, fp, h1, l₁, rec, l₂, sp2, hsplit, hrec, hham, _⟩
    · exfalso
      have hsnd : dd = t + 1 := by
        have := congrArg Prod.snd hb
        simpa using this
      omega
    · have hofp : ofp = some fp := h1
      have hmem : (fp, rec) ∈ db := by
        rw [hsplit]
        exact List.mem_append_right _ (List.mem_cons_self _ _)
      have hne : fp ≠ "" := hkeys (fp, rec) hmem
      refine ⟨fp, dd, ?_⟩
      simp only [find_similar_by_phash, if_true, hr, hofp]
      have hddt : dd ≤ t := le_trans hle2 hle
      simp [hne, hddt]

/-- Witness: on `sampleDB` with query `[true, true]` and threshold 5, the
stored code of `a.jpg` lies within the threshold, so a match is returned. -/
theorem find_similar_spec_witness :
    ∃ fp d,
      find_similar_by_phash true sampleDB [true, true] 5 = some (fp, d) :=
  (find_similar_spec sampleDB [true, true] 5).2.2.2.2 (by decide)
    ⟨("a.jpg", ⟨some "s1", some [true, false]⟩), by decide,
     [true, false], rfl, by decide⟩

/-- C1: evaluation of the code on the spec's own scenario — two files with
identical bytes under root `R`, the first sorted into `Vacation`.  After
the first successful move the hash database is still empty: the loop calls
`add_to_hash_db` with the pre-move path `R/x`, where no file exists any
more (the photo is already at `R/Vacation/x`), so the digest computation
fails and the addition is silently swallowed.  The second, byte-identical
file is therefore not classified Exact: it is presented normally and, when
also filed, the session ends with `sorted_count = 2` and
`duplicate_count = 0` instead of the claimed `1` and `1`.  The last
conjunct shows the claim's intent is realisable: had the record been stored
for the file's new location, the second file would classify Exact. -/
theorem hash_db_not_updated_after_move :
    fsGet (runScript twinSorter [⟨true, .digit 1⟩]).1.fs "R/x" = none ∧
    fsGet (runScript twinSorter [⟨true, .digit 1⟩]).1.fs "R/Vacation/x" =
      some ⟨"h", none⟩ ∧
    (runScript twinSorter [⟨true, .digit 1⟩]).1.hash_db = [] ∧
    (runScript twinSorter twinScript).1.sorted_count = 2 ∧
    (runScript twinSorter twinScript).1.duplicate_count = 0 ∧
    (runScript twinSorter twinScript).1.hash_db = [] ∧
    is_duplicate false
        (fsSet (fsRemove twinFS "R/x") "R/Vacation/x" ⟨"h", none⟩)
        (fun _ => none) "R/y" (add_hash "R" [] "R/Vacation/x" "h" none) 5 =
      (true, some "exact", some "Vacation/x") := by
  refine ⟨?_, ?_, ?_, ?_, ?_, ?_, ?_⟩ <;> decide

end PhotoSortr
